import Mathlib

set_option maxRecDepth 8000

/- Verification of the robotnix updater core (src/updater/src) against its
   specification.  Shallow embedding of the manifest resolution engine
   (repo_manifest.rs), the ref/prefetch layer (base.rs) and the incremental
   fetch/lockfile engine (repo_lockfile.rs).  File I/O and the network are
   abstracted by oracle parameters; machine effects (the external
   nix-prefetch-git call, the git reference-advertisement connection, the
   atomic lockfile saves) are made observable through an explicit event
   trace. -/

/-- Association-list map with the observable semantics of the HashMaps used by
the source: lookup finds the value at a key, insert replaces the value at an
existing key. -/
def lookupL {α : Type} (l : List (String × α)) (k : String) : Option α :=
  match l with
  | [] => none
  | (k2, v) :: rest => if k2 = k then some v else lookupL rest k

/-- Insert with replacement, mirroring HashMap::insert. -/
def insertL {α : Type} (l : List (String × α)) (k : String) (v : α) : List (String × α) :=
  match l with
  | [] => [(k, v)]
  | (k2, v2) :: rest => if k2 = k then (k, v) :: rest else (k2, v2) :: insertL rest k v

/-- Modelled from the spec: the `Repository` record used by repo_manifest.rs,
repo_lockfile.rs and lineage.rs, which all construct it as
`Repository { url: ... }`.  The copy of base.rs in the tree is an earlier
revision still carrying a remote/path pair, but every caller in the tree
observes only the absolute repository URL (spec section 3, BranchSettings). -/
structure Repository where
  url : String
  deriving Repr, DecidableEq

/-- FetchgitArgs (base.rs:13-28): the immutable fetch descriptor emitted by
nix-prefetch-git and stored in the lockfile. -/
structure FetchgitArgs where
  url : String
  rev : String
  date : String
  path : String
  hash : String
  fetch_lfs : Bool
  fetch_submodules : Bool
  deep_clone : Bool
  leave_dot_git : Bool
  deriving Repr, DecidableEq

/-- GetRevOfBranchError (base.rs:90-94); the git2 error payload is kept
abstract as a string. -/
inductive GetRevOfBranchError where
  | Libgit (e : String)
  | BranchNotFound
  deriving Repr, DecidableEq

/-- Scan of the advertised reference list in `get_rev_of_branch`
(base.rs:102-107): first head whose name equals "refs/heads/" ++ branch wins;
no match is BranchNotFound. -/
def get_rev_loop (remote_heads : List (String × String)) (branch : String) :
    Except GetRevOfBranchError String :=
  match remote_heads with
  | [] => .error .BranchNotFound
  | remote_head :: rest =>
    if remote_head.1 = ("refs/heads/" ++ branch) then .ok remote_head.2
    else get_rev_loop rest branch

/-- Shallow embedding of `get_rev_of_branch` (src/updater/src/base.rs:96-108).
The network is abstracted by `connect`, which maps a repository URL to the
advertised reference list of the remote, as pairs of ref name and object id
(the source renders the oid with the Debug formatter, a hex string); a failure
of Remote::create_detached or Remote::list surfaces as a Libgit error.  The
function unconditionally queries the advertisement for the name
"refs/heads/" ++ branch: the source has no commit-id fast path and no
conditional normalization of refs already qualified with "refs/". -/
def get_rev_of_branch (connect : String → Except String (List (String × String)))
    (repo : Repository) (branch : String) : Except GetRevOfBranchError String :=
  match connect repo.url with
  | .error e => .error (.Libgit e)
  | .ok remote_heads => get_rev_loop remote_heads branch

/-- Failure modes of the external nix-prefetch-git invocation in
`nix_prefetch_git_repo` (base.rs:131-138): the Command::output call fails, or
its stdout is not a valid descriptor.  Payloads kept abstract as strings. -/
inductive PrefetchCmdError where
  | IOError (e : String)
  | Parser (e : String)
  deriving Repr, DecidableEq

/-- NixPrefetchGitError (base.rs:111-116). -/
inductive NixPrefetchGitError where
  | GetRevOfBranch (e : GetRevOfBranchError)
  | IOError (e : String)
  | Parser (e : String)
  deriving Repr, DecidableEq

/-- Lockfile shape (repo_lockfile.rs:17): path to descriptor-or-null. -/
abbrev RepoLockfile := List (String × Option FetchgitArgs)

/-- Observable machine effects of one run: a git reference-advertisement
lookup against a repository URL for a branch, an external nix-prefetch-git
invocation for a (url, rev) pair, and an atomic persist of a full lockfile
snapshot (save_repo_lockfile, repo_lockfile.rs:25-36). -/
inductive FetchEvent where
  | resolve (url : String) (branch : String)
  | prefetch (url : String) (rev : String)
  | save (lf : RepoLockfile)
  deriving Repr, DecidableEq

/-- Modelled from the spec: `RepoProjectBranchSettings` (spec section 3,
BranchSettings: repository URL, resolved git ref, copy-file map, link-file
map).  The record is constructed in repo_manifest.rs:238-257 and consumed in
repo_lockfile.rs:61-64; the base.rs revision in the tree predates its
declaration. -/
structure RepoProjectBranchSettings where
  repo : Repository
  copyfiles : List (String × String)
  linkfiles : List (String × String)
  git_ref : String
  deriving Repr, DecidableEq

/-- Modelled from the spec: `RepoProject` (spec section 3, ResolvedProject:
path, nonfree flag, branch name to BranchSettings map), constructed in
repo_manifest.rs:226-231 and lineage.rs:67-82. -/
structure RepoProject where
  path : String
  nonfree : Bool
  branch_settings : List (String × RepoProjectBranchSettings)
  deriving Repr, DecidableEq

/-- Shallow embedding of `nix_prefetch_git_repo` (base.rs:118-142).  Ref
resolution and the external nix-prefetch-git command are abstracted by the
`resolve` and `prefetchCmd` oracles; the second component of the result is
the trace of machine effects the call performs.  The source computes
`fetch = prev.rev != rev` when a previous descriptor exists (else true), runs
the external command when fetch holds, and otherwise returns `prev.unwrap()`
unchanged; the match below makes explicit that the unwrap is reached only
with `prev` present. -/
def nix_prefetch_git_repo
    (resolve : Repository → String → Except GetRevOfBranchError String)
    (prefetchCmd : String → String → Except PrefetchCmdError FetchgitArgs)
    (repo : Repository) (branch : String) (prev : Option FetchgitArgs) :
    Except NixPrefetchGitError FetchgitArgs × List FetchEvent :=
  match resolve repo branch with
  | .error e => (.error (.GetRevOfBranch e), [.resolve repo.url branch])
  | .ok rev =>
    let run : Except NixPrefetchGitError FetchgitArgs × List FetchEvent :=
      (match prefetchCmd repo.url rev with
        | .ok args => .ok args
        | .error (.IOError e) => .error (.IOError e)
        | .error (.Parser e) => .error (.Parser e),
       [.resolve repo.url branch, .prefetch repo.url rev])
    match prev with
    | some fetchgit_args =>
      if fetchgit_args.rev ≠ rev then run
      else (.ok fetchgit_args, [.resolve repo.url branch])
    | none => run

/-- IncrementallyFetchReposError (repo_lockfile.rs:38-44).  The save path
(atomic write of the serialized map) is modelled as always succeeding, so the
SaveLockfile and Utf8/Parser load constructors never arise in the embedding
but are kept for shape fidelity. -/
inductive IncrementallyFetchReposError where
  | Utf8 (e : String)
  | Parser (e : String)
  | NixPrefetch (e : NixPrefetchGitError)
  | SaveLockfile (e : String)
  deriving Repr, DecidableEq

/-- Per-project loop of `incrementally_fetch_projects`
(repo_lockfile.rs:60-85).  For each project in order: a project without
branch settings for the requested branch is skipped by `continue` (note: no
save happens for it); otherwise the stored entry supplies the previous
descriptor only when it is a present descriptor (a null marker and a missing
key both yield None, repo_lockfile.rs:66-70); `nix_prefetch_git_repo` is then
invoked, BranchNotFound stores a null marker and continues, any other error
aborts, and after each stored entry the whole current lockfile is persisted
(the save event carries the persisted snapshot). -/
def incrementally_fetch_go
    (resolve : Repository → String → Except GetRevOfBranchError String)
    (prefetchCmd : String → String → Except PrefetchCmdError FetchgitArgs)
    (branch : String) :
    List RepoProject → RepoLockfile → List FetchEvent →
    Except IncrementallyFetchReposError (RepoLockfile × List FetchEvent)
  | [], lockfile, evs => .ok (lockfile, evs)
  | project :: rest, lockfile, evs =>
    match lookupL project.branch_settings branch with
    | none => incrementally_fetch_go resolve prefetchCmd branch rest lockfile evs
    | some settings =>
      let repo := settings.repo
      let old := match lookupL lockfile project.path with
        | some (some fetchgit_args) => some fetchgit_args
        | _ => none
      match nix_prefetch_git_repo resolve prefetchCmd repo branch old with
      | (.ok args, evs2) =>
        let lockfile2 := insertL lockfile project.path (some args)
        incrementally_fetch_go resolve prefetchCmd branch rest lockfile2
          (evs ++ evs2 ++ [.save lockfile2])
      | (.error (.GetRevOfBranch .BranchNotFound), evs2) =>
        let lockfile2 := insertL lockfile project.path none
        incrementally_fetch_go resolve prefetchCmd branch rest lockfile2
          (evs ++ evs2 ++ [.save lockfile2])
      | (.error e, _) => .error (.NixPrefetch e)

/-- Shallow embedding of `incrementally_fetch_projects`
(repo_lockfile.rs:46-88).  The initial read of the lockfile file is abstracted
by the `loaded` parameter (the source falls back to an empty map when the
file cannot be read and aborts on a parse error). -/
def incrementally_fetch_projects
    (resolve : Repository → String → Except GetRevOfBranchError String)
    (prefetchCmd : String → String → Except PrefetchCmdError FetchgitArgs)
    (loaded : RepoLockfile) (projects : List RepoProject) (branch : String) :
    Except IncrementallyFetchReposError (RepoLockfile × List FetchEvent) :=
  incrementally_fetch_go resolve prefetchCmd branch projects loaded []

/-- GitRepoRemote (repo_manifest.rs:20-33): the `revision` attribute is the
remote's optional default ref. -/
structure GitRepoRemote where
  name : String
  fetch : String
  review : Option String
  default_ref : Option String
  deriving Repr, DecidableEq

/-- GitRepoDefaultRemote (repo_manifest.rs:35-48). -/
structure GitRepoDefaultRemote where
  remote : String
  default_ref : Option String
  sync_c : String
  sync_j : String
  deriving Repr, DecidableEq

/-- GitRepoFile (repo_manifest.rs:50-57). -/
structure GitRepoFile where
  src : String
  dest : String
  deriving Repr, DecidableEq

/-- GitRepoProject (repo_manifest.rs:59-81). -/
structure GitRepoProject where
  path : String
  repo_name : String
  groups : Option String
  remote : Option String
  git_ref : Option String
  linkfiles : List GitRepoFile
  copyfiles : List GitRepoFile
  deriving Repr, DecidableEq

/-- ReadManifestError (repo_manifest.rs:106-115); I/O and parser payloads kept
abstract as strings. -/
inductive ReadManifestError where
  | FileRead (e : String)
  | Utf8 (e : String)
  | Parser (e : String)
  | MissingDefaultRemote
  | MissingDefaultRef
  | UnknownRemote (name : String)
  | MoreThanOneDefaultRemote
  deriving Repr, DecidableEq

/-- GitRepoManifest (repo_manifest.rs:90-104) without its include list: the
include structure is represented separately by `ManifestTree` (the children of
a node are the manifests its `<include>` elements resolve to), and a
flattened manifest always has an empty include list
(repo_manifest.rs:150). -/
structure GitRepoManifest where
  remotes : List GitRepoRemote
  default_remote : Option GitRepoDefaultRemote
  projects : List GitRepoProject
  deriving Repr, DecidableEq

/-- RemoteSpec (repo_manifest.rs:264-267). -/
structure RemoteSpec where
  url : String
  default_ref : Option String
  deriving Repr, DecidableEq

/-- Rust `str::strip_suffix('/')` followed by `unwrap_or(identity)`: remove
one trailing slash when present, else keep the string. -/
def strip_trailing_slash (s : String) : String :=
  match s.data.getLast? with
  | some c => if c = '/' then String.mk s.data.dropLast else s
  | none => s

/-- Rust `str::split('/')` on the character list: always at least one part,
empty parts preserved (so "".split is [""], "a/".split is ["a", ""]). -/
def split_slash_chars : List Char → List (List Char)
  | [] => [[]]
  | c :: cs =>
    let rest := split_slash_chars cs
    if c = '/' then [] :: rest
    else match rest with
      | [] => [[c]]
      | h :: t => (c :: h) :: t

/-- Rust `str::split('/')` producing strings. -/
def split_slash (s : String) : List String :=
  (split_slash_chars s.data).map String.mk

/-- Rust `[String]::join("/")`. -/
def join_slash : List String → String
  | [] => ""
  | [x] => x
  | x :: xs => x ++ ("/") ++ join_slash xs

/-- URL computation of one remote spec (repo_manifest.rs:171-184).  A fetch
value other than ".." is used directly with one trailing slash stripped
(strip_suffix); for fetch == ".." the root URL is split on "/" and the slice
url_parts[0..url_parts.len()-2] is joined.  When the split yields fewer than
two parts, len()-2 underflows and the program panics (debug: subtraction
overflow; release: slice range out of bounds); the panic is modelled as
`none`.  The source also computes a stripped root URL but never uses it. -/
def remote_spec_url (fetch root_url : String) : Option String :=
  if fetch ≠ ".." then
    some (strip_trailing_slash fetch)
  else
    let url_parts := split_slash root_url
    if 2 ≤ url_parts.length then
      some (join_slash (url_parts.take (url_parts.length - 2)))
    else
      none

/-- Loop body of `get_remote_specs` (repo_manifest.rs:156-187): derive one
remote's spec — its absolute base URL and its effective default ref (the
DefaultRemote's revision takes precedence for the remote named by the
DefaultRemote; every other remote keeps its own default ref) — and insert it
into the map with replacement.  `none` propagates the `remote_spec_url`
panic. -/
def remote_spec_step (default_remote : Option GitRepoDefaultRemote) (root_url : String)
    (remote_specs : List (String × RemoteSpec)) (remote : GitRepoRemote) :
    Option (List (String × RemoteSpec)) := do
  let is_default_remote := match default_remote with
    | some d => d.remote == remote.name
    | none => false
  let default_ref := if is_default_remote then
      match default_remote with
      | some d =>
        match d.default_ref with
        | some r => some r
        | none => remote.default_ref
      | none => remote.default_ref
    else remote.default_ref
  let url ← remote_spec_url remote.fetch root_url
  pure (insertL remote_specs remote.name { url := url, default_ref := default_ref })

/-- Shallow embedding of `get_remote_specs` (repo_manifest.rs:154-190): fold
the loop body over the declared remotes in order, starting from the empty
map. -/
def GitRepoManifest.get_remote_specs (m : GitRepoManifest) (root_url : String) :
    Option (List (String × RemoteSpec)) :=
  m.remotes.foldlM (remote_spec_step m.default_remote root_url) []

/-- Shallow embedding of `get_url_and_ref` (repo_manifest.rs:192-217).  The
outer Option propagates the `get_remote_specs` panic; the inner Except is the
function's own result.  The nested matches reproduce Rust's evaluation order:
both `unwrap_or` fallback arguments are built eagerly, so the
MissingDefaultRemote check runs even when a project remote override is
present, and the MissingDefaultRef check on the default remote's revision
runs (after the UnknownRemote lookup) even when a project ref override or a
remote-level default ref is present. -/
def GitRepoManifest.get_url_and_ref (m : GitRepoManifest) (remote : Option String)
    (custom_ref : Option String) (root_url : String) :
    Option (Except ReadManifestError (String × String)) :=
  match m.get_remote_specs root_url with
  | none => none
  | some remote_specs =>
    some (
      match m.default_remote with
      | none => .error .MissingDefaultRemote
      | some d =>
        let remote_name := remote.getD d.remote
        match lookupL remote_specs remote_name with
        | none => .error (.UnknownRemote remote_name)
        | some remote_spec =>
          match d.default_ref with
          | none => .error .MissingDefaultRef
          | some default_rev =>
            .ok (remote_spec.url, custom_ref.getD (remote_spec.default_ref.getD default_rev)))

mutual

/-- Include tree for `read_and_flatten` (repo_manifest.rs:132-152): a node is
one manifest document together with the trees its `<include name>` elements
resolve to, in declaration order.  The filesystem indirection of `read` is
pre-resolved into the tree, which also fixes a termination order (the source
recurses blindly through the filesystem and has no cycle guard). -/
inductive ManifestTree : Type where
  | node : GitRepoManifest → ManifestForest → ManifestTree
  deriving Repr

/-- Ordered list of included sub-trees (the Vec of `<include>` elements). -/
inductive ManifestForest : Type where
  | nil : ManifestForest
  | cons : ManifestTree → ManifestForest → ManifestForest
  deriving Repr

end

mutual

/-- Shallow embedding of `GitRepoManifest::read_and_flatten`
(repo_manifest.rs:132-152): read the root manifest, then merge each included
sub-tree's flattening into it left to right. -/
def read_and_flatten : ManifestTree → Except ReadManifestError GitRepoManifest
  | .node m includes => flatten_go m includes

/-- Loop body of `read_and_flatten`: `acc` is the manifest accumulated so
far.  Each include is recursively flattened; its remotes and projects are
appended; if it carries a default remote and the accumulator already has one
this is a MoreThanOneDefaultRemote error (repo_manifest.rs:141-147). -/
def flatten_go : GitRepoManifest → ManifestForest → Except ReadManifestError GitRepoManifest
  | acc, .nil => .ok acc
  | acc, .cons t ts =>
    match read_and_flatten t with
    | .error e => .error e
    | .ok submanifest =>
      let acc2 : GitRepoManifest :=
        { remotes := acc.remotes ++ submanifest.remotes
          default_remote := acc.default_remote
          projects := acc.projects ++ submanifest.projects }
      match submanifest.default_remote with
      | some default_remote =>
        match acc.default_remote with
        | none => flatten_go { acc2 with default_remote := some default_remote } ts
        | some _ => .error .MoreThanOneDefaultRemote
      | none => flatten_go acc2 ts

end

/-- One when the manifest document declares a `<default>` remote. -/
def defaultBit (m : GitRepoManifest) : Nat :=
  if m.default_remote.isSome then 1 else 0

mutual

/-- Number of manifests in the tree that declare a `<default>` remote. -/
def count_tree : ManifestTree → Nat
  | .node m includes => defaultBit m + count_forest includes

/-- Number of manifests in the forest that declare a `<default>` remote. -/
def count_forest : ManifestForest → Nat
  | .nil => 0
  | .cons t ts => count_tree t + count_forest ts

end

mutual

/-- First `<default>` remote declared in the tree, in the traversal order of
`read_and_flatten` (the node's own declaration before its includes). -/
def first_default_tree : ManifestTree → Option GitRepoDefaultRemote
  | .node m includes =>
    match m.default_remote with
    | some d => some d
    | none => first_default_forest includes

/-- First `<default>` remote declared in the forest. -/
def first_default_forest : ManifestForest → Option GitRepoDefaultRemote
  | .nil => none
  | .cons t ts =>
    match first_default_tree t with
    | some d => some d
    | none => first_default_forest ts

end

/-- Concrete descriptor builder for witnesses: fixed boolean options and
metadata, as nix-prefetch-git emits them. -/
def mkArgs (url rev : String) : FetchgitArgs :=
  { url := url, rev := rev, date := "1970-01-01", path := "/nix/store/x", hash := "sha256-0",
    fetch_lfs := false, fetch_submodules := false, deep_clone := false, leave_dot_git := false }

/-- Concrete branch settings for witnesses. -/
def mkSettings (url git_ref : String) : RepoProjectBranchSettings :=
  { repo := { url := url }, copyfiles := [], linkfiles := [], git_ref := git_ref }

/-- Concrete project with settings for exactly one branch, for witnesses. -/
def mkProject (path branch url : String) : RepoProject :=
  { path := path, nonfree := false,
    branch_settings := [(branch, mkSettings url ("refs/heads/" ++ branch))] }

/-- Ref-resolution oracle answering every query with the same revision. -/
def resolveConst (rev : String) : Repository → String → Except GetRevOfBranchError String :=
  fun _ _ => .ok rev

/-- Ref-resolution oracle reporting every branch as absent. -/
def resolveNotFound : Repository → String → Except GetRevOfBranchError String :=
  fun _ _ => .error .BranchNotFound

/-- Prefetch oracle answering every query with the same descriptor. -/
def prefetchConst (args : FetchgitArgs) : String → String → Except PrefetchCmdError FetchgitArgs :=
  fun _ _ => .ok args

/-- Prefetch oracle whose external command always fails. -/
def prefetchFail : String → String → Except PrefetchCmdError FetchgitArgs :=
  fun _ _ => .error (.IOError ("nix-prefetch-git unavailable"))

/-- Witness repository. -/
def repoW : Repository := { url := "https://host/r" }

/-- Witness descriptor pinned at revision cafebabe. -/
def argsW : FetchgitArgs := mkArgs ("https://host/r") ("cafebabe")

/-- Witness project at path p. -/
def projW : RepoProject := mkProject ("p") ("b") ("https://host/r")

/-- Witness lockfile already holding the descriptor for p. -/
def lkW : RepoLockfile := [(("p"), some argsW)]

/-- Witness descriptor for the re-probe scenarios. -/
def args6 : FetchgitArgs := mkArgs ("https://host/p") ("da39a3ee5e6b4b0d3255bfef95601890afd80709")

/-- Witness project for the re-probe scenarios. -/
def proj6 : RepoProject := mkProject ("p") ("b") ("https://host/p")

/-- Witness project with no branch settings at all (always skipped). -/
def projSkip : RepoProject := { path := "s", nonfree := false, branch_settings := [] }

/-- Witness remote r with a remote-level default ref. -/
def remR : GitRepoRemote :=
  { name := "r", fetch := "https://host/org", review := none,
    default_ref := some ("refs/heads/x") }

/-- Witness default-remote declaration naming r but carrying no revision. -/
def dRNoRev : GitRepoDefaultRemote :=
  { remote := "r", default_ref := none, sync_c := "true", sync_j := "4" }

/-- Witness default-remote declaration naming r with a revision. -/
def dRRev : GitRepoDefaultRemote :=
  { remote := "r", default_ref := some ("refs/heads/main"), sync_c := "true", sync_j := "4" }

/-- Witness manifest whose default remote carries no revision. -/
def mNoRev : GitRepoManifest :=
  { remotes := [remR], default_remote := some dRNoRev, projects := [] }

/-- Witness manifest with no default remote at all. -/
def mNoDefault : GitRepoManifest :=
  { remotes := [remR], default_remote := none, projects := [] }

/-- Witness manifest with a fully specified default remote. -/
def mFull : GitRepoManifest :=
  { remotes := [remR], default_remote := some dRRev, projects := [] }

/-- Witness remote whose fetch attribute is the ".." convention. -/
def remDotDot : GitRepoRemote :=
  { name := "origin", fetch := "..", review := none, default_ref := none }

/-- Witness manifest containing the ".." remote. -/
def mDotDot : GitRepoManifest :=
  { remotes := [remDotDot], default_remote := none, projects := [] }

/-- Manifest document that only declares (at most) a default remote. -/
def leafM (d : Option GitRepoDefaultRemote) : GitRepoManifest :=
  { remotes := [], default_remote := d, projects := [] }

/-- Include tree in which two manifests declare a default remote. -/
def tTwoDefaults : ManifestTree :=
  .node (leafM (some dRRev)) (.cons (.node (leafM (some dRNoRev)) .nil) .nil)

/-- Include tree in which exactly one (included) manifest declares a default
remote. -/
def tOneDefault : ManifestTree :=
  .node (leafM none) (.cons (.node (leafM (some dRRev)) .nil) .nil)

/-- C3: the specification claims that a ref string of exactly 40 hexadecimal
characters is returned unchanged by `get_rev_of_branch` with no remote
connection.  The code at base.rs:96-108 has no such fast path: for the 40-hex
commit id below it opens the connection (so a transport failure surfaces as a
Libgit error, second conjunct) and scans the advertisement for the name
"refs/heads/" ++ commit id, answering BranchNotFound when that name is not
advertised (first conjunct), instead of returning the commit id verbatim. -/
theorem get_rev_of_branch_no_hex_fast_path :
    get_rev_of_branch (fun _ => .ok []) { url := "https://host/repo" }
        ("aaaaaaaaaaaaaaaaaaaaaaaaaaaaaaaaaaaaaaaa")
      = .error .BranchNotFound
    ∧ get_rev_of_branch (fun _ => .error ("connection refused")) { url := "https://host/repo" }
        ("aaaaaaaaaaaaaaaaaaaaaaaaaaaaaaaaaaaaaaaa")
      = .error (.Libgit ("connection refused")) := by
  constructor <;> rfl

/-- C4: the specification claims the queried name is obtained by conditional
normalization (a ref already starting with "refs/" is queried unchanged).  The
code prepends "refs/heads/" unconditionally: a qualified ref
"refs/heads/main" is queried as "refs/heads/refs/heads/main", so it is not
found when the remote advertises "refs/heads/main" (first conjunct) and is
found only under the doubled name (second conjunct).  Only for unqualified
refs does the code agree with the claim (third conjunct). -/
theorem get_rev_of_branch_unconditional_prefix :
    get_rev_of_branch
        (fun _ => .ok [("refs/heads/main", "74ce0a7f0ca27f10a71a5b8b8a91b3b1074f4315")])
        { url := "https://host/repo" } ("refs/heads/main")
      = .error .BranchNotFound
    ∧ get_rev_of_branch
        (fun _ => .ok [("refs/heads/refs/heads/main", "74ce0a7f0ca27f10a71a5b8b8a91b3b1074f4315")])
        { url := "https://host/repo" } ("refs/heads/main")
      = .ok ("74ce0a7f0ca27f10a71a5b8b8a91b3b1074f4315")
    ∧ get_rev_of_branch
        (fun _ => .ok [("refs/heads/foo", "74ce0a7f0ca27f10a71a5b8b8a91b3b1074f4315")])
        { url := "https://host/repo" } ("foo")
      = .ok ("74ce0a7f0ca27f10a71a5b8b8a91b3b1074f4315") := by
  refine ⟨?_, ?_, ?_⟩ <;> rfl

/-- Lookup after insert at the same key. -/
theorem lookupL_insertL_self {α : Type} (l : List (String × α)) (k : String) (v : α) :
    lookupL (insertL l k v) k = some v := by
  induction l with
  | nil => simp [insertL, lookupL]
  | cons p rest ih =>
    obtain ⟨k2, v2⟩ := p
    by_cases h : k2 = k
    · simp [insertL, lookupL, h]
    · simp [insertL, lookupL, h, ih]

/-- Lookup after insert at a different key. -/
theorem lookupL_insertL_ne {α : Type} (l : List (String × α)) (k : String) (v : α)
    (x : String) (hx : x ≠ k) : lookupL (insertL l k v) x = lookupL l x := by
  induction l with
  | nil => simp [insertL, lookupL, Ne.symm hx]
  | cons p rest ih =>
    obtain ⟨k2, v2⟩ := p
    by_cases h : k2 = k
    · subst h
      simp [insertL, lookupL, Ne.symm hx]
    · simp [insertL, lookupL, h, ih]

/-- Paths never visited by the loop keep their stored entry: a successful run
only rewrites the entries of the projects it processes. -/
theorem incrementally_fetch_go_preserves
    (resolve : Repository → String → Except GetRevOfBranchError String)
    (prefetchCmd : String → String → Except PrefetchCmdError FetchgitArgs)
    (branch : String) :
    ∀ (ps : List RepoProject) (lockfile : RepoLockfile) (evs : List FetchEvent)
      (L : RepoLockfile) (E : List FetchEvent) (x : String),
      incrementally_fetch_go resolve prefetchCmd branch ps lockfile evs = .ok (L, E) →
      x ∉ ps.map (fun p => p.path) →
      lookupL L x = lookupL lockfile x := by
  intro ps
  induction ps with
  | nil =>
    intro lockfile evs L E x h _
    simp [incrementally_fetch_go] at h
    rw [← h.1]
  | cons project rest ih =>
    intro lockfile evs L E x h hx
    simp only [List.map_cons, List.mem_cons, not_or] at hx
    obtain ⟨hx1, hx2⟩ := hx
    rw [incrementally_fetch_go] at h
    cases hset : lookupL project.branch_settings branch with
    | none =>
      rw [hset] at h
      exact ih lockfile evs L E x h hx2
    | some settings =>
      rw [hset] at h
      dsimp only at h
      cases hnp : nix_prefetch_git_repo resolve prefetchCmd settings.repo branch
          (match lookupL lockfile project.path with
            | some (some fetchgit_args) => some fetchgit_args
            | _ => none) with
      | mk res evs2 =>
        rw [hnp] at h
        cases res with
        | ok args =>
          have := ih _ _ L E x h hx2
          rw [this, lookupL_insertL_ne _ _ _ _ hx1]
        | error e =>
          cases e with
          | GetRevOfBranch e2 =>
            cases e2 with
            | BranchNotFound =>
              have := ih _ _ L E x h hx2
              rw [this, lookupL_insertL_ne _ _ _ _ hx1]
            | Libgit s => simp at h
          | IOError s => simp at h
          | Parser s => simp at h

/-- C5: when the resolved revision equals the revision of the previous
descriptor, `nix_prefetch_git_repo` returns that descriptor unchanged and its
trace contains no prefetch event (base.rs:122-141), and consequently the
per-project step of `incrementally_fetch_projects` for a path whose stored
descriptor already carries the resolved revision reinstates exactly that
descriptor and proceeds to the remaining projects with no external fetch
(repo_lockfile.rs:66-84). -/
theorem nix_prefetch_cache_hit
    (resolve : Repository → String → Except GetRevOfBranchError String)
    (prefetchCmd : String → String → Except PrefetchCmdError FetchgitArgs)
    (repo : Repository) (branch : String) (prev_args : FetchgitArgs)
    (h : resolve repo branch = .ok prev_args.rev) :
    nix_prefetch_git_repo resolve prefetchCmd repo branch (some prev_args)
      = (.ok prev_args, [.resolve repo.url branch])
    ∧ ∀ (rest : List RepoProject) (lockfile : RepoLockfile) (evs : List FetchEvent)
        (project : RepoProject) (settings : RepoProjectBranchSettings),
        lookupL project.branch_settings branch = some settings →
        settings.repo = repo →
        lookupL lockfile project.path = some (some prev_args) →
        incrementally_fetch_go resolve prefetchCmd branch (project :: rest) lockfile evs
          = incrementally_fetch_go resolve prefetchCmd branch rest
              (insertL lockfile project.path (some prev_args))
              (evs ++ [.resolve repo.url branch]
                   ++ [.save (insertL lockfile project.path (some prev_args))]) := by
  constructor
  · simp [nix_prefetch_git_repo, h]
  · intro rest lockfile evs project settings hset hrepo hlk
    rw [incrementally_fetch_go, hset]
    dsimp only
    rw [hlk]
    simp [nix_prefetch_git_repo, hrepo, h]

/-- Witness for C5 at a concrete cache-hit run: the prefetch oracle always
fails, so the equalities also show the external command is never consulted. -/
theorem nix_prefetch_cache_hit_witness :
    nix_prefetch_git_repo (resolveConst ("cafebabe")) prefetchFail repoW ("b") (some argsW)
      = (.ok argsW, [.resolve ("https://host/r") ("b")])
    ∧ incrementally_fetch_go (resolveConst ("cafebabe")) prefetchFail ("b") [projW] lkW []
      = incrementally_fetch_go (resolveConst ("cafebabe")) prefetchFail ("b") []
          (insertL lkW ("p") (some argsW))
          ([] ++ [.resolve ("https://host/r") ("b")]
              ++ [.save (insertL lkW ("p") (some argsW))]) := by
  have h := nix_prefetch_cache_hit (resolveConst ("cafebabe")) prefetchFail repoW ("b") argsW
    (by rfl)
  exact ⟨h.1, h.2 [] lkW [] projW (mkSettings ("https://host/r") ("refs/heads/b"))
    (by rfl) (by rfl) (by rfl)⟩

/-- C6 counterexample: the specification claims the orchestrator skips
re-probing a path whose loaded lockfile entry is the null marker, performing
no ref resolution and no fetch for it.  In the run below the lockfile starts
as p mapped to null, yet the trace of the single-project run contains a
resolve event and a prefetch event for p: the loop never inspects the marker
except to drop it (repo_lockfile.rs:66-70 turns both a null entry and a
missing key into no previous descriptor), so the repository is re-probed and,
its branch existing again, fully re-fetched. -/
theorem incremental_fetch_reprobes_absent_marker :
    incrementally_fetch_projects
        (resolveConst ("da39a3ee5e6b4b0d3255bfef95601890afd80709")) (prefetchConst args6)
        [(("p"), (none : Option FetchgitArgs))] [proj6] ("b")
      = .ok ([(("p"), some args6)],
          [.resolve ("https://host/p") ("b"),
           .prefetch ("https://host/p") ("da39a3ee5e6b4b0d3255bfef95601890afd80709"),
           .save [(("p"), some args6)]]) := by
  rfl

/-- C6 amended: a null lockfile entry does not suppress re-probing.  A
project whose stored entry is the absent marker is processed exactly like one
with no previous descriptor: the ref is resolved again and, when the branch
now resolves, a fresh external fetch runs and its descriptor replaces the
marker, after which the remaining projects are processed normally. -/
theorem incremental_fetch_absent_marker_reprobed
    (resolve : Repository → String → Except GetRevOfBranchError String)
    (prefetchCmd : String → String → Except PrefetchCmdError FetchgitArgs)
    (branch : String) (project : RepoProject) (settings : RepoProjectBranchSettings)
    (rest : List RepoProject) (lockfile : RepoLockfile) (evs : List FetchEvent)
    (rev : String) (args : FetchgitArgs)
    (hset : lookupL project.branch_settings branch = some settings)
    (hmark : lookupL lockfile project.path = some none)
    (hres : resolve settings.repo branch = .ok rev)
    (hpf : prefetchCmd settings.repo.url rev = .ok args) :
    incrementally_fetch_go resolve prefetchCmd branch (project :: rest) lockfile evs
      = incrementally_fetch_go resolve prefetchCmd branch rest
          (insertL lockfile project.path (some args))
          (evs ++ [.resolve settings.repo.url branch, .prefetch settings.repo.url rev]
               ++ [.save (insertL lockfile project.path (some args))]) := by
  rw [incrementally_fetch_go, hset]
  dsimp only
  rw [hmark]
  simp [nix_prefetch_git_repo, hres, hpf]

/-- Witness for the amended C6 at a concrete input. -/
theorem incremental_fetch_absent_marker_reprobed_witness :
    incrementally_fetch_go
        (resolveConst ("da39a3ee5e6b4b0d3255bfef95601890afd80709")) (prefetchConst args6)
        ("b") [proj6] [(("p"), (none : Option FetchgitArgs))] []
      = incrementally_fetch_go
          (resolveConst ("da39a3ee5e6b4b0d3255bfef95601890afd80709")) (prefetchConst args6)
          ("b") []
          (insertL [(("p"), (none : Option FetchgitArgs))] ("p") (some args6))
          ([] ++ [.resolve ("https://host/p") ("b"),
                  .prefetch ("https://host/p") ("da39a3ee5e6b4b0d3255bfef95601890afd80709")]
              ++ [.save (insertL [(("p"), (none : Option FetchgitArgs))] ("p") (some args6))]) :=
  incremental_fetch_absent_marker_reprobed
    (resolveConst ("da39a3ee5e6b4b0d3255bfef95601890afd80709")) (prefetchConst args6)
    ("b") proj6 (mkSettings ("https://host/p") ("refs/heads/b"))
    [] [(("p"), (none : Option FetchgitArgs))] []
    ("da39a3ee5e6b4b0d3255bfef95601890afd80709") args6
    (by rfl) (by rfl) (by rfl) (by rfl)

/-- C7: a BranchNotFound outcome of ref resolution is non-fatal: the loop
stores the null marker under the project's path, persists, and continues with
the remaining projects (first conjunct); a transport error of the resolver —
Libgit is its only other constructor — aborts the whole run (second
conjunct); every failure of the external fetch command, the I/O error and the
malformed-output parse error alike, aborts the run whenever the fetch is
actually triggered, i.e. for every stored state that yields no reusable
descriptor: a missing key, a null marker, or a stored descriptor whose
revision differs (third conjunct); and when the continuation run succeeds and
no later project shares the path, the final lockfile still maps the path to
null while the other paths were processed normally by the same continuation
(fourth conjunct). -/
theorem incremental_fetch_branch_not_found_nonfatal
    (resolve : Repository → String → Except GetRevOfBranchError String)
    (prefetchCmd : String → String → Except PrefetchCmdError FetchgitArgs)
    (branch : String) (project : RepoProject) (settings : RepoProjectBranchSettings)
    (rest : List RepoProject) (lockfile : RepoLockfile) (evs : List FetchEvent)
    (hset : lookupL project.branch_settings branch = some settings) :
    (resolve settings.repo branch = .error .BranchNotFound →
      incrementally_fetch_go resolve prefetchCmd branch (project :: rest) lockfile evs
        = incrementally_fetch_go resolve prefetchCmd branch rest
            (insertL lockfile project.path none)
            (evs ++ [.resolve settings.repo.url branch]
                 ++ [.save (insertL lockfile project.path none)]))
    ∧ (∀ e, resolve settings.repo branch = .error (.Libgit e) →
        incrementally_fetch_go resolve prefetchCmd branch (project :: rest) lockfile evs
          = .error (.NixPrefetch (.GetRevOfBranch (.Libgit e))))
    ∧ (∀ rev (e : PrefetchCmdError),
        (lookupL lockfile project.path = none
          ∨ lookupL lockfile project.path = some none
          ∨ ∃ prev, lookupL lockfile project.path = some (some prev) ∧ prev.rev ≠ rev) →
        resolve settings.repo branch = .ok rev →
        prefetchCmd settings.repo.url rev = .error e →
        incrementally_fetch_go resolve prefetchCmd branch (project :: rest) lockfile evs
          = .error (.NixPrefetch (match e with
              | PrefetchCmdError.IOError s => NixPrefetchGitError.IOError s
              | PrefetchCmdError.Parser s => NixPrefetchGitError.Parser s)))
    ∧ (∀ (L : RepoLockfile) (E : List FetchEvent),
        incrementally_fetch_go resolve prefetchCmd branch rest
            (insertL lockfile project.path none)
            (evs ++ [.resolve settings.repo.url branch]
                 ++ [.save (insertL lockfile project.path none)]) = .ok (L, E) →
        project.path ∉ rest.map (fun p => p.path) →
        lookupL L project.path = some none) := by
  refine ⟨?_, ?_, ?_, ?_⟩
  · intro hres
    rw [incrementally_fetch_go, hset]
    dsimp only
    simp [nix_prefetch_git_repo, hres]
  · intro e hres
    rw [incrementally_fetch_go, hset]
    dsimp only
    simp [nix_prefetch_git_repo, hres]
  · intro rev e hold hres hpf
    cases e with
    | IOError s =>
      rw [incrementally_fetch_go, hset]
      dsimp only
      rcases hold with h | h | ⟨prev, h, hne⟩
      · rw [h]; simp [nix_prefetch_git_repo, hres, hpf]
      · rw [h]; simp [nix_prefetch_git_repo, hres, hpf]
      · rw [h]; simp [nix_prefetch_git_repo, hres, hpf, hne]
    | Parser s =>
      rw [incrementally_fetch_go, hset]
      dsimp only
      rcases hold with h | h | ⟨prev, h, hne⟩
      · rw [h]; simp [nix_prefetch_git_repo, hres, hpf]
      · rw [h]; simp [nix_prefetch_git_repo, hres, hpf]
      · rw [h]; simp [nix_prefetch_git_repo, hres, hpf, hne]
  · intro L E hrun hnot
    have := incrementally_fetch_go_preserves resolve prefetchCmd branch rest _ _ L E
      project.path hrun hnot
    rw [this, lookupL_insertL_self]

/-- Witness for C7 at a concrete absent branch. -/
theorem incremental_fetch_branch_not_found_nonfatal_witness :
    incrementally_fetch_go resolveNotFound prefetchFail ("b") [proj6] [] []
      = incrementally_fetch_go resolveNotFound prefetchFail ("b") []
          (insertL [] ("p") none)
          ([] ++ [.resolve ("https://host/p") ("b")] ++ [.save (insertL [] ("p") none)]) :=
  (incremental_fetch_branch_not_found_nonfatal resolveNotFound prefetchFail ("b") proj6
    (mkSettings ("https://host/p") ("refs/heads/b")) [] [] [] (by rfl)).1 (by rfl)

/-- C8 counterexample: the specification claims the lockfile is persisted
after every per-project step, including a skip for lacking branch settings.
In the run below the first project has no settings for branch b; it is
skipped by `continue` (repo_lockfile.rs:63), which jumps straight to the next
project without reaching the save call: the trace shows no save event before
the second project's resolve event, and a run consisting only of the skipped
project would persist nothing at all. -/
theorem incremental_fetch_skip_without_save :
    incrementally_fetch_projects
        (resolveConst ("da39a3ee5e6b4b0d3255bfef95601890afd80709")) (prefetchConst args6)
        [] [projSkip, proj6] ("b")
      = .ok ([(("p"), some args6)],
          [.resolve ("https://host/p") ("b"),
           .prefetch ("https://host/p") ("da39a3ee5e6b4b0d3255bfef95601890afd80709"),
           .save [(("p"), some args6)]])
    ∧ incrementally_fetch_projects
        (resolveConst ("da39a3ee5e6b4b0d3255bfef95601890afd80709")) (prefetchConst args6)
        [] [projSkip] ("b")
      = .ok ([], []) := by
  constructor <;> rfl

/-- C8 amended: the whole current lockfile is persisted after every step that
stores an entry, before the next project is processed — a triggered fetch,
whether over a missing key, a null marker, or a stale stored descriptor whose
revision changed (second conjunct), a cache hit that re-stores the previous
descriptor unchanged (third conjunct), or a recorded branch absence (fourth
conjunct); a project skipped for lacking branch settings triggers no persist
and leaves the lockfile untouched (first conjunct), so the persisted file
still reflects all completed steps. -/
theorem incremental_fetch_save_discipline
    (resolve : Repository → String → Except GetRevOfBranchError String)
    (prefetchCmd : String → String → Except PrefetchCmdError FetchgitArgs)
    (branch : String) (project : RepoProject) (rest : List RepoProject)
    (lockfile : RepoLockfile) (evs : List FetchEvent) :
    (lookupL project.branch_settings branch = none →
      incrementally_fetch_go resolve prefetchCmd branch (project :: rest) lockfile evs
        = incrementally_fetch_go resolve prefetchCmd branch rest lockfile evs)
    ∧ (∀ settings rev args, lookupL project.branch_settings branch = some settings →
        (lookupL lockfile project.path = none
          ∨ lookupL lockfile project.path = some none
          ∨ ∃ prev, lookupL lockfile project.path = some (some prev) ∧ prev.rev ≠ rev) →
        resolve settings.repo branch = .ok rev →
        prefetchCmd settings.repo.url rev = .ok args →
        incrementally_fetch_go resolve prefetchCmd branch (project :: rest) lockfile evs
          = incrementally_fetch_go resolve prefetchCmd branch rest
              (insertL lockfile project.path (some args))
              (evs ++ [.resolve settings.repo.url branch, .prefetch settings.repo.url rev]
                   ++ [.save (insertL lockfile project.path (some args))]))
    ∧ (∀ settings prev, lookupL project.branch_settings branch = some settings →
        lookupL lockfile project.path = some (some prev) →
        resolve settings.repo branch = .ok prev.rev →
        incrementally_fetch_go resolve prefetchCmd branch (project :: rest) lockfile evs
          = incrementally_fetch_go resolve prefetchCmd branch rest
              (insertL lockfile project.path (some prev))
              (evs ++ [.resolve settings.repo.url branch]
                   ++ [.save (insertL lockfile project.path (some prev))]))
    ∧ (∀ settings, lookupL project.branch_settings branch = some settings →
        resolve settings.repo branch = .error .BranchNotFound →
        incrementally_fetch_go resolve prefetchCmd branch (project :: rest) lockfile evs
          = incrementally_fetch_go resolve prefetchCmd branch rest
              (insertL lockfile project.path none)
              (evs ++ [.resolve settings.repo.url branch]
                   ++ [.save (insertL lockfile project.path none)])) := by
  refine ⟨?_, ?_, ?_, ?_⟩
  · intro hskip
    rw [incrementally_fetch_go, hskip]
  · intro settings rev args hset hold hres hpf
    rw [incrementally_fetch_go, hset]
    dsimp only
    rcases hold with h | h | ⟨prev, h, hne⟩
    · rw [h]; simp [nix_prefetch_git_repo, hres, hpf]
    · rw [h]; simp [nix_prefetch_git_repo, hres, hpf]
    · rw [h]; simp [nix_prefetch_git_repo, hres, hpf, hne]
  · intro settings prev hset hlk hres
    rw [incrementally_fetch_go, hset]
    dsimp only
    rw [hlk]
    simp [nix_prefetch_git_repo, hres]
  · intro settings hset hres
    rw [incrementally_fetch_go, hset]
    dsimp only
    simp [nix_prefetch_git_repo, hres]

/-- Witness for the amended C8: a skipped project changes nothing and
persists nothing. -/
theorem incremental_fetch_save_discipline_witness :
    incrementally_fetch_go resolveNotFound prefetchFail ("b") [projSkip] lkW []
      = incrementally_fetch_go resolveNotFound prefetchFail ("b") [] lkW [] :=
  (incremental_fetch_save_discipline resolveNotFound prefetchFail ("b") projSkip [] lkW []).1
    (by rfl)

/-- C1 counterexample: the specification claims a project with an explicit
ref override resolves successfully regardless of whether the remote or the
default-remote carry any default ref, and that MissingDefaultRef arises only
when all three tiers are absent.  Here the manifest has a default remote
without a revision, the remote r itself advertises a default ref, and the
project supplies an explicit ref override — yet `get_url_and_ref` returns
MissingDefaultRef: Rust evaluates the `unwrap_or` fallback chain eagerly
(repo_manifest.rs:202-214), so the `?` on the default remote's revision fires
before either override is consulted. -/
theorem get_url_and_ref_override_hits_missing_default_ref :
    mNoRev.get_url_and_ref none (some ("refs/heads/y")) ("https://host/org/manifest")
      = some (.error .MissingDefaultRef) := by
  rfl

/-- C1 amended: once a remote spec has been selected, the returned ref obeys
the claimed precedence — project override, then the chosen remote's effective
default ref, then the default remote's revision — but MissingDefaultRef is
returned exactly when the manifest default-remote's revision is absent, even
when a project ref override or a remote-level default ref is available,
because the fallback chain is evaluated eagerly. -/
theorem get_url_and_ref_ref_precedence
    (m : GitRepoManifest) (remote custom_ref : Option String) (root_url : String)
    (d : GitRepoDefaultRemote) (specs : List (String × RemoteSpec)) (spec : RemoteSpec)
    (hd : m.default_remote = some d)
    (hs : m.get_remote_specs root_url = some specs)
    (hl : lookupL specs (remote.getD d.remote) = some spec) :
    m.get_url_and_ref remote custom_ref root_url
      = some (match d.default_ref with
          | none => .error .MissingDefaultRef
          | some default_rev =>
            .ok (spec.url, custom_ref.getD (spec.default_ref.getD default_rev))) := by
  rw [GitRepoManifest.get_url_and_ref, hs, hd]
  dsimp only
  rw [hl]

/-- Witness for the amended C1: with the default remote's revision present,
the project override wins. -/
theorem get_url_and_ref_ref_precedence_witness :
    mFull.get_url_and_ref none (some ("refs/heads/y")) ("https://host/org/manifest")
      = some (.ok (("https://host/org"), ("refs/heads/y"))) :=
  get_url_and_ref_ref_precedence mFull none (some ("refs/heads/y"))
    ("https://host/org/manifest") dRRev
    [(("r"), { url := "https://host/org", default_ref := some ("refs/heads/main") })]
    { url := "https://host/org", default_ref := some ("refs/heads/main") }
    (by rfl) (by rfl) (by rfl)

/-- C2 counterexample: the specification claims a project with an explicit
remote override resolves its remote successfully even when the manifest has
no default remote.  Here the manifest declares remote r and no `<default>`,
and the project overrides its remote to r — yet `get_url_and_ref` returns
MissingDefaultRemote, because the `unwrap_or` fallback argument
(repo_manifest.rs:194-198) is evaluated eagerly and its `?` fires before the
override is consulted. -/
theorem get_url_and_ref_override_hits_missing_default_remote :
    mNoDefault.get_url_and_ref (some ("r")) none ("https://host/org/manifest")
      = some (.error .MissingDefaultRemote) := by
  rfl

/-- C2 amended: `get_url_and_ref` selects the project's remote override when
present and falls back to the manifest's default remote otherwise, but it
returns MissingDefaultRemote exactly when the manifest default remote is
absent — even when a project remote override is present (first conjunct).
With a default remote declared, the looked-up name is the override when
present (second and third conjuncts: the UnknownRemote payload and the
returned URL both come from the override-first name) and
MissingDefaultRemote can no longer arise (fourth conjunct). -/
theorem get_url_and_ref_remote_selection
    (m : GitRepoManifest) (remote custom_ref : Option String) (root_url : String) :
    (m.default_remote = none →
      m.get_url_and_ref remote custom_ref root_url
        = (m.get_remote_specs root_url).map
            (fun _ => .error .MissingDefaultRemote))
    ∧ (∀ d specs, m.default_remote = some d →
        m.get_remote_specs root_url = some specs →
        lookupL specs (remote.getD d.remote) = none →
        m.get_url_and_ref remote custom_ref root_url
          = some (.error (.UnknownRemote (remote.getD d.remote))))
    ∧ (∀ d specs spec, m.default_remote = some d →
        m.get_remote_specs root_url = some specs →
        lookupL specs (remote.getD d.remote) = some spec →
        ∀ (pair : String × String),
          m.get_url_and_ref remote custom_ref root_url = some (.ok pair) →
          pair.1 = spec.url)
    ∧ (∀ d, m.default_remote = some d →
        m.get_url_and_ref remote custom_ref root_url
          ≠ some (.error .MissingDefaultRemote)) := by
  refine ⟨?_, ?_, ?_, ?_⟩
  · intro hd
    cases hs : m.get_remote_specs root_url with
    | none => simp [GitRepoManifest.get_url_and_ref, hs]
    | some specs => simp [GitRepoManifest.get_url_and_ref, hd, hs]
  · intro d specs hd hs hl
    rw [GitRepoManifest.get_url_and_ref, hs, hd]
    dsimp only
    rw [hl]
  · intro d specs spec hd hs hl pair
    rw [GitRepoManifest.get_url_and_ref, hs, hd]
    dsimp only
    rw [hl]
    cases hdr : d.default_ref with
    | none => intro h; simp at h
    | some default_rev =>
      intro h
      simp only [Option.some.injEq, Except.ok.injEq] at h
      rw [← h]
  · intro d hd
    cases hs : m.get_remote_specs root_url with
    | none => simp [GitRepoManifest.get_url_and_ref, hs]
    | some specs =>
      rw [GitRepoManifest.get_url_and_ref, hs, hd]
      dsimp only
      cases hl : lookupL specs (remote.getD d.remote) with
      | none => simp
      | some spec =>
        cases hdr : d.default_ref with
        | none => simp
        | some default_rev => simp

/-- Witness for the amended C2: with a default remote declared the
override-first name is the one looked up (UnknownRemote names it), and with
no default remote the override does not save the resolution. -/
theorem get_url_and_ref_remote_selection_witness :
    mFull.get_url_and_ref (some ("q")) none ("https://host/org/manifest")
      = some (.error (.UnknownRemote ("q")))
    ∧ mNoDefault.get_url_and_ref (some ("r")) none ("https://host/org/manifest")
      = (mNoDefault.get_remote_specs ("https://host/org/manifest")).map
          (fun _ => .error .MissingDefaultRemote) := by
  constructor
  · exact (get_url_and_ref_remote_selection mFull (some ("q")) none
      ("https://host/org/manifest")).2.1 dRRev
      [(("r"), { url := "https://host/org", default_ref := some ("refs/heads/main") })]
      (by rfl) (by rfl) (by rfl)
  · exact (get_url_and_ref_remote_selection mNoDefault (some ("r")) none
      ("https://host/org/manifest")).1 (by rfl)

/-- Taking all but the last two elements equals dropping the last one
twice. -/
theorem take_sub_two_eq_dropLast_dropLast {α : Type} (l : List α) :
    l.take (l.length - 2) = l.dropLast.dropLast := by
  rw [List.dropLast_eq_take, List.dropLast_eq_take, List.take_take, List.length_take]
  congr 1
  omega

/-- Any remote whose fetch attribute is ".." makes the spec fold panic when
the root URL has fewer than two slash-separated parts, wherever it sits in
the remote list. -/
theorem remote_spec_fold_none
    (default_remote : Option GitRepoDefaultRemote) (root_url : String)
    (hshort : (split_slash root_url).length < 2) :
    ∀ (l : List GitRepoRemote) (init : List (String × RemoteSpec)),
      (∃ r, r ∈ l ∧ r.fetch = "..") →
      List.foldlM (remote_spec_step default_remote root_url) init l = none := by
  intro l
  induction l with
  | nil =>
    intro init hex
    rcases hex with ⟨r, hr, _⟩
    exact absurd hr (by simp)
  | cons r l ih =>
    intro init hex
    rw [List.foldlM_cons]
    cases hstep : remote_spec_step default_remote root_url init r with
    | none => rfl
    | some acc2 =>
      rcases hex with ⟨s, hs, hfetch⟩
      rcases List.mem_cons.mp hs with heq | hmem
      · subst heq
        simp [remote_spec_step, remote_spec_url, hfetch, Nat.not_le.mpr hshort] at hstep
      · exact ih acc2 ⟨s, hmem, hfetch⟩

/-- C10: remote-spec derivation is not total.  When some remote's fetch
attribute is exactly ".." and the root URL splits into fewer than two
"/"-separated parts (for example a URL containing no slash at all), the
slice bound url_parts.len()-2 underflows and `get_remote_specs` panics —
modelled as `none` (first conjunct); with at least two parts the ".." URL is
the root URL with its last two parts dropped, joined back with "/" (second
conjunct). -/
theorem get_remote_specs_dotdot_partiality
    (m : GitRepoManifest) (root_url : String) :
    ((∃ r, r ∈ m.remotes ∧ r.fetch = "..") →
      (split_slash root_url).length < 2 →
      m.get_remote_specs root_url = none)
    ∧ (2 ≤ (split_slash root_url).length →
        remote_spec_url (("..")) root_url
          = some (join_slash ((split_slash root_url).dropLast.dropLast))) := by
  constructor
  · intro hex hshort
    rw [GitRepoManifest.get_remote_specs]
    exact remote_spec_fold_none m.default_remote root_url hshort m.remotes [] hex
  · intro hlen
    rw [remote_spec_url]
    simp only [ne_eq, not_true_eq_false, if_false, if_pos hlen,
      take_sub_two_eq_dropLast_dropLast]

/-- Witness for C10: a slashless root URL panics, a four-part root URL is
stripped to its first two parts. -/
theorem get_remote_specs_dotdot_partiality_witness :
    mDotDot.get_remote_specs ("hostnoslash") = none
    ∧ remote_spec_url (("..")) ("https://host/org/manifest")
      = some (join_slash ((split_slash ("https://host/org/manifest")).dropLast.dropLast)) := by
  constructor
  · exact (get_remote_specs_dotdot_partiality mDotDot ("hostnoslash")).1
      ⟨remDotDot, by simp [mDotDot], by rfl⟩ (by decide)
  · exact (get_remote_specs_dotdot_partiality mDotDot ("https://host/org/manifest")).2
      (by decide)

/-- Combined induction (on a size bound) for the flattening pass: the first
declared default remote is absent exactly when no manifest declares one; the
flattening errors with MoreThanOneDefaultRemote exactly when the declaration
count (plus the accumulator's own) reaches two; MoreThanOneDefaultRemote is
the only error the pure flattening can produce; and a successful flattening
carries the accumulator's default remote, else the first declared one. -/
theorem flatten_spec_aux : ∀ (n : Nat),
    (∀ (t : ManifestTree), sizeOf t ≤ n →
      ((first_default_tree t = none ↔ count_tree t = 0)
      ∧ (read_and_flatten t = .error .MoreThanOneDefaultRemote ↔ 2 ≤ count_tree t)
      ∧ (∀ e, read_and_flatten t = .error e → e = .MoreThanOneDefaultRemote)
      ∧ (∀ r, read_and_flatten t = .ok r → r.default_remote = first_default_tree t)))
    ∧ (∀ (ts : ManifestForest), sizeOf ts ≤ n →
      ((first_default_forest ts = none ↔ count_forest ts = 0)
      ∧ ∀ (acc : GitRepoManifest),
          ((flatten_go acc ts = .error .MoreThanOneDefaultRemote ↔
              2 ≤ defaultBit acc + count_forest ts)
          ∧ (∀ e, flatten_go acc ts = .error e → e = .MoreThanOneDefaultRemote)
          ∧ (∀ r, flatten_go acc ts = .ok r →
              r.default_remote = (match acc.default_remote with
                | some d => some d
                | none => first_default_forest ts))))) := by
  intro n
  induction n with
  | zero =>
    constructor
    · intro t ht
      exfalso
      cases t with
      | node m includes => simp at ht
    · intro ts hts
      exfalso
      cases ts with
      | nil => simp at hts
      | cons t ts2 => simp at hts
  | succ n ih =>
    obtain ⟨ihT, ihF⟩ := ih
    constructor
    · intro t ht
      cases t with
      | node m includes =>
        have hsz : sizeOf includes ≤ n := by
          simp at ht; omega
        obtain ⟨hFD, hGO⟩ := ihF includes hsz
        obtain ⟨g1, g2, g3⟩ := hGO m
        refine ⟨?_, ?_, ?_, ?_⟩
        · cases hm : m.default_remote with
          | some d => simp [first_default_tree, count_tree, defaultBit, hm]
          | none => simp [first_default_tree, count_tree, defaultBit, hm, hFD]
        · have : count_tree (.node m includes) = defaultBit m + count_forest includes := rfl
          rw [this]
          exact g1
        · intro e he
          exact g2 e he
        · intro r hr
          have := g3 r hr
          rw [this]
          cases hm : m.default_remote with
          | some d => simp [first_default_tree, hm]
          | none => simp [first_default_tree, hm]
    · intro ts hts
      cases ts with
      | nil =>
        refine ⟨by simp [first_default_forest, count_forest], ?_⟩
        intro acc
        have hbit : defaultBit acc ≤ 1 := by
          unfold defaultBit; split <;> omega
        refine ⟨?_, ?_, ?_⟩
        · simp only [flatten_go, count_forest]
          exact iff_of_false (by simp) (by omega)
        · intro e he
          simp [flatten_go] at he
        · intro r hr
          simp only [flatten_go, Except.ok.injEq] at hr
          subst hr
          cases hm : acc.default_remote with
          | some d => simp [hm, first_default_forest]
          | none => simp [hm, first_default_forest]
      | cons t ts2 =>
        have hszt : sizeOf t ≤ n := by simp at hts; omega
        have hszts : sizeOf ts2 ≤ n := by simp at hts; omega
        obtain ⟨hT1, hT2, hT3, hT4⟩ := ihT t hszt
        obtain ⟨hF1, hGO2⟩ := ihF ts2 hszts
        constructor
        · cases hft : first_default_tree t with
          | some d =>
            have hct : ¬ count_tree t = 0 := by
              intro h0
              have := hT1.mpr h0
              rw [hft] at this
              exact absurd this (by simp)
            simp only [first_default_forest, count_forest, hft]
            exact iff_of_false (by simp) (by omega)
          | none =>
            have hct0 : count_tree t = 0 := hT1.mp hft
            simp only [first_default_forest, count_forest, hft, hct0, Nat.zero_add]
            exact hF1
        · intro acc
          cases hrf : read_and_flatten t with
          | error e =>
            have he := hT3 e hrf
            subst he
            have hct2 : 2 ≤ count_tree t := hT2.mp hrf
            have hfl : flatten_go acc (.cons t ts2) = .error .MoreThanOneDefaultRemote := by
              simp [flatten_go, hrf]
            refine ⟨?_, ?_, ?_⟩
            · rw [hfl]
              simp only [count_forest]
              exact iff_of_true trivial (by omega)
            · intro e2 he2
              rw [hfl] at he2
              simpa using he2.symm
            · intro r hr
              rw [hfl] at hr
              exact absurd hr (by simp)
          | ok sub =>
            have hsubd : sub.default_remote = first_default_tree t := hT4 sub hrf
            have hnot2 : ¬ 2 ≤ count_tree t := by
              intro h2
              have := hT2.mpr h2
              rw [this] at hrf
              exact absurd hrf (by simp)
            cases hsd : sub.default_remote with
            | some d =>
              have hft : first_default_tree t = some d := by rw [← hsubd, hsd]
              have hct1 : ¬ count_tree t = 0 := by
                intro h0
                have := hT1.mpr h0
                rw [hft] at this
                exact absurd this (by simp)
              cases had : acc.default_remote with
              | some d0 =>
                have hfl : flatten_go acc (.cons t ts2)
                    = .error .MoreThanOneDefaultRemote := by
                  simp [flatten_go, hrf, hsd, had]
                refine ⟨?_, ?_, ?_⟩
                · rw [hfl]
                  have hb1 : defaultBit acc = 1 := by simp [defaultBit, had]
                  simp only [count_forest, hb1]
                  exact iff_of_true trivial (by omega)
                · intro e2 he2
                  rw [hfl] at he2
                  simpa using he2.symm
                · intro r hr
                  rw [hfl] at hr
                  exact absurd hr (by simp)
              | none =>
                have hfl : flatten_go acc (.cons t ts2)
                    = flatten_go
                        { remotes := acc.remotes ++ sub.remotes
                          default_remote := some d
                          projects := acc.projects ++ sub.projects } ts2 := by
                    simp [flatten_go, hrf, hsd, had]
                obtain ⟨g1, g2, g3⟩ := hGO2
                  { remotes := acc.remotes ++ sub.remotes
                    default_remote := some d
                    projects := acc.projects ++ sub.projects }
                refine ⟨?_, ?_, ?_⟩
                · rw [hfl, g1]
                  have hb2 : defaultBit
                      { remotes := acc.remotes ++ sub.remotes
                        default_remote := some d
                        projects := acc.projects ++ sub.projects } = 1 := rfl
                  have hb0 : defaultBit acc = 0 := by simp [defaultBit, had]
                  simp only [count_forest, hb2, hb0]
                  omega
                · intro e2 he2
                  rw [hfl] at he2
                  exact g2 e2 he2
                · intro r hr
                  rw [hfl] at hr
                  have := g3 r hr
                  rw [this]
                  simp only [first_default_forest, hft, had]
            | none =>
              have hft : first_default_tree t = none := by rw [← hsubd, hsd]
              have hct0 : count_tree t = 0 := hT1.mp hft
              have hfl : flatten_go acc (.cons t ts2)
                  = flatten_go
                      { remotes := acc.remotes ++ sub.remotes
                        default_remote := acc.default_remote
                        projects := acc.projects ++ sub.projects } ts2 := by
                  simp [flatten_go, hrf, hsd]
              obtain ⟨g1, g2, g3⟩ := hGO2
                { remotes := acc.remotes ++ sub.remotes
                  default_remote := acc.default_remote
                  projects := acc.projects ++ sub.projects }
              have hbiteq :
                  defaultBit { remotes := acc.remotes ++ sub.remotes
                               default_remote := acc.default_remote
                               projects := acc.projects ++ sub.projects }
                    = defaultBit acc := rfl
              refine ⟨?_, ?_, ?_⟩
              · rw [hfl, g1, hbiteq]
                simp only [count_forest, hct0]
                omega
              · intro e2 he2
                rw [hfl] at he2
                exact g2 e2 he2
              · intro r hr
                rw [hfl] at hr
                have := g3 r hr
                rw [this]
                cases had : acc.default_remote with
                | some d0 => simp [had]
                | none => simp [had, first_default_forest, hft]

/-- C9: flattening an include tree in which more than one manifest declares a
default remote returns the MoreThanOneDefaultRemote error (first conjunct);
with at most one declaration the flattening succeeds and the flattened
manifest carries exactly the declared default remote when there is one, and
none otherwise (second conjunct) — one is never silently picked over
another. -/
theorem read_and_flatten_default_remote_uniqueness (t : ManifestTree) :
    (2 ≤ count_tree t → read_and_flatten t = .error .MoreThanOneDefaultRemote)
    ∧ (count_tree t ≤ 1 →
        ∃ r, read_and_flatten t = .ok r ∧ r.default_remote = first_default_tree t) := by
  obtain ⟨hT, _⟩ := flatten_spec_aux (sizeOf t)
  obtain ⟨h1, h2, h3, h4⟩ := hT t (Nat.le_refl _)
  constructor
  · exact fun h => h2.mpr h
  · intro hle
    cases hrf : read_and_flatten t with
    | error e =>
      have he := h3 e hrf
      subst he
      have := h2.mp hrf
      omega
    | ok r => exact ⟨r, rfl, h4 r hrf⟩

/-- Witness for C9: a two-declaration tree errors; a one-declaration tree
flattens and carries that declaration. -/
theorem read_and_flatten_default_remote_uniqueness_witness :
    read_and_flatten tTwoDefaults = .error .MoreThanOneDefaultRemote
    ∧ (∃ r, read_and_flatten tOneDefault = .ok r
          ∧ r.default_remote = first_default_tree tOneDefault) := by
  constructor
  · exact (read_and_flatten_default_remote_uniqueness tTwoDefaults).1
      (by simp [tTwoDefaults, count_tree, count_forest, defaultBit, leafM])
  · exact (read_and_flatten_default_remote_uniqueness tOneDefault).2
      (by simp [tOneDefault, count_tree, count_forest, defaultBit, leafM])
